import Mathlib

/-!
Verification development for the cohort-analysis repository.

Each Python source function relevant to the specification claims is
shallow-embedded as a Lean definition:

* src/tasks/threadCount.py            → threadCount_calc (with its local min/max)
* src/scripts/cohort_utils.py         → calculate_thread_counts
* src/scripts/cohort_merge.py         → cohort_merge_mergeStage, resolveLatest_merge,
                                        nextVersion_merge
* src/scripts/cohort_update.py        → resolveLatest_update, nextVersion_update,
                                        missing_tbi_files / cohort_update_preEngine
* src/scripts/create_manifest_files.py→ find_files_with_new_samples,
                                        write_manifest_files
* src/scripts/vcf_merge.py            → shares check_tbi_files with cohort_update

Python integer arithmetic is modelled with Int (math.floor(a / b) on ints is
Int.fdiv, math.ceil(a / b) is the negated floor of the negation); a Python
ZeroDivisionError is modelled by returning none from an Option-typed
embedding.  Filesystem state (directory listings, os.path.exists, mtimes) is
passed in explicitly.
-/

/-- Python helper max(a, b) defined at the top of threadCount.py:
returns a if a > b else b. -/
def pymax (a b : Int) : Int := if a > b then a else b

/-- Python helper min(a, b) defined at the top of threadCount.py:
returns a if a < b else b. -/
def pymin (a b : Int) : Int := if a < b then a else b

/-- Model of math.ceil(a / b) for integers a, b with b not zero:
the ceiling of the rational a / b, computed as the negated floor
division of the negation. -/
def ceilIntDiv (a b : Int) : Int := -((-a).fdiv b)

/-- Result record of the computation in threadCount.py main
(lines 61-74): the flatten/reader/readers-per-flattener counts and the
two diagnostic back-computed values, which Python computes with true
division (modelled exactly over the rationals). -/
structure ThreadCounts where
  flatten_threads : Int
  reader_threads : Int
  readers_per_flattener : Int
  merge_threads : ℚ
  total : ℚ
  deriving Repr, DecidableEq

/-- Embedding of threadCount.py main, lines 61-74, for validated inputs
(cpu_count > 0 and file_count > 0 are checked earlier in main).
Returns none exactly when Python would raise ZeroDivisionError:
either flatten_threads = 0 (the division in reader_threads) or
readers_per_flattener = 0 (the divisions in the back-computation). -/
def threadCount_calc (cpu_count file_count : Int) : Option ThreadCounts :=
  let flatten_threads := pymin (cpu_count - 2) file_count
  if flatten_threads = 0 then none
  else
    let remaining_threads := cpu_count - flatten_threads
    let reader_threads := pymax 1 (remaining_threads.fdiv flatten_threads)
    let readers_per_flattener := ceilIntDiv file_count flatten_threads
    if readers_per_flattener = 0 then none
    else
      let merge_threads : ℚ :=
        ((file_count : ℚ) + (readers_per_flattener : ℚ)) / (readers_per_flattener : ℚ)
      some { flatten_threads := flatten_threads
             reader_threads := reader_threads
             readers_per_flattener := readers_per_flattener
             merge_threads := merge_threads
             total := merge_threads * (reader_threads : ℚ) + merge_threads }

/-- Embedding of calculate_thread_counts in cohort_utils.py (lines 48-71):
all formula lines are commented out in the source; the function returns the
fixed pair (reader_threads, readers_per_flattener) = (5, 1) regardless of
its two arguments. -/
def calculate_thread_counts (cpu_count file_count : Int) : Int × Int :=
  let readers_per_flattener : Int := 1
  let reader_threads : Int := 5
  let _merge_threads : ℚ :=
    ((file_count : ℚ) + (readers_per_flattener : ℚ)) / (readers_per_flattener : ℚ)
  let _total : ℚ := _merge_threads * (reader_threads : ℚ) + _merge_threads
  let _ := cpu_count
  (reader_threads, readers_per_flattener)

/-- The two thread-count fields written into the mergeVariantsTransform
stage of the task graph by cohort_merge.py main (lines 163-169). -/
structure MergeStage where
  readerWorkerThreads : Int
  readersPerFlattener : Int
  deriving Repr, DecidableEq

/-- Embedding of the merge-stage construction in cohort_merge.py main
(lines 157-169): the stage parameters come from
calculate_thread_counts(agent_cpu_cores, len(new_counts_files)). -/
def cohort_merge_mergeStage (agent_cpu_cores file_count : Int) : MergeStage :=
  let rt := (calculate_thread_counts agent_cpu_cores file_count).1
  let rpf := (calculate_thread_counts agent_cpu_cores file_count).2
  { readerWorkerThreads := rt, readersPerFlattener := rpf }

/-- Model of os.path.basename: the suffix of the path after the last
slash (empty when the path ends in a slash). -/
def basename (s : String) : String :=
  String.mk (s.data.foldl (fun acc c => if c = '/' then [] else acc ++ [c]) [])

/-- Comparison key used by cohort_merge.py line 110:
sorted(existing_counts, key=os.path.basename). -/
def basenameLe (a b : String) : Prop := basename a ≤ basename b

instance : DecidableRel basenameLe := fun a b =>
  decidable_of_iff ((basename a).toList ≤ (basename b).toList) String.le_iff_toList_le.symm

instance : IsTotal String basenameLe := ⟨fun a b => le_total (basename a) (basename b)⟩

instance : IsTrans String basenameLe := ⟨fun _ _ _ hab hbc => le_trans hab hbc⟩

/-- Embedding of the existing-counts resolution in cohort_merge.py main
(lines 101-113): if the glob result is non-empty, stable-sort it ascending
by basename and take the last element; otherwise None.  The input list
carries the filesystem enumeration order of glob.glob. -/
def resolveLatest_merge (files : List String) : Option String :=
  if files.isEmpty then none
  else (List.insertionSort basenameLe files).getLast?

/-- Embedding of the existing-counts resolution in cohort_update.py main
(lines 196-203): stable-sort the glob result by os.path.getmtime in
descending order and take the first element (none when the glob result is
empty).  The mtime map is passed in explicitly. -/
def resolveLatest_update (files : List String) (getmtime : String → Int) : Option String :=
  (List.insertionSort (fun a b => getmtime b ≤ getmtime a) files).head?

/-- A clock reading as the scripts observe it: the broken-down UTC fields
used by strftime, the sub-second part (which no emitted token retains),
and the whole-second Unix timestamp produced by int(datetime.now().timestamp()). -/
structure UtcTime where
  year : Nat
  month : Nat
  day : Nat
  hour : Nat
  minute : Nat
  second : Nat
  microsecond : Nat
  epochSeconds : Nat
  deriving Repr, DecidableEq

/-- Character for a single decimal digit d < 10, as in Python's str(int). -/
def digitChar48 (d : Nat) : Char := Char.ofNat (48 + d)

/-- Decimal representation of a natural number, as Python's str(int)
renders it: big-endian digit characters, with 0 rendered as "0". -/
def decStr (n : Nat) : String :=
  if n = 0 then "0"
  else String.mk ((Nat.digits 10 n).reverse.map digitChar48)

/-- Zero-padded two-digit field, as in strftime %m, %d, %H, %M. -/
def pad2 (n : Nat) : String := if n < 10 then "0" ++ decStr n else decStr n

/-- Zero-padded four-digit year, as in strftime %Y. -/
def pad4 (n : Nat) : String :=
  if n < 10 then "000" ++ decStr n
  else if n < 100 then "00" ++ decStr n
  else if n < 1000 then "0" ++ decStr n
  else decStr n

/-- strftime("%Y-%m-%d") as used for source_version in cohort_update.py
line 178. -/
def strf_Ymd (t : UtcTime) : String :=
  pad4 t.year ++ "-" ++ pad2 t.month ++ "-" ++ pad2 t.day

/-- strftime("%Y-%m-%d-%H-%M") as used for source_version in
cohort_merge.py line 74. -/
def strf_YmdHM (t : UtcTime) : String :=
  strf_Ymd t ++ "-" ++ pad2 t.hour ++ "-" ++ pad2 t.minute

/-- Embedding of the output-name construction in cohort_update.py lines
205-207: out_file = f-string of the base, the %Y-%m-%d source_version and
the whole-second Unix timestamp. -/
def nextVersion_update (out_file_base : String) (t : UtcTime) : String :=
  out_file_base ++ "_" ++ strf_Ymd t ++ "_" ++ decStr t.epochSeconds ++ ".tsf"

/-- Embedding of the output-name construction in cohort_merge.py lines
74-96 (default path, no --out-file argument): the config base name with
the minute-resolution %Y-%m-%d-%H-%M source_version appended. -/
def nextVersion_merge (out_file_base : String) (t : UtcTime) : String :=
  out_file_base ++ "_" ++ strf_YmdHM t ++ ".tsf"

/-- One entry of the candidate directory listing seen by
find_files_with_new_samples in create_manifest_files.py: its filename, the
is_file() flag, and the sample names bcftools extracts from it (none when
the extraction subprocess raises, which the code catches and skips). -/
structure DirEntry where
  name : String
  isFile : Bool
  samples : Option (List String)
  deriving Repr, DecidableEq

/-- Python str.split, specialised to the dot separator as used by
create_manifest_files.py line 47: splits a character list at every dot,
keeping empty segments. -/
def splitDot : List Char → List (List Char)
  | [] => [[]]
  | c :: cs =>
    let r := splitDot cs
    if c = '.' then [] :: r
    else
      match r with
      | [] => [[c]]
      | seg :: rest => (c :: seg) :: rest

/-- Embedding of the extension test in create_manifest_files.py line 47:
the pathlib suffix must be ".gz" and the last dot-segment of the stem must
be "vcf"; equivalently, the last dot-segment of the name is "gz" and the
one before it is "vcf". -/
def passes_vcf_gz_filter (name : String) : Bool :=
  match (splitDot name.data).reverse with
  | last :: stem_last :: _ => last == "gz".data && stem_last == "vcf".data
  | _ => false

/-- The acceptance condition of the loop body in
find_files_with_new_samples (create_manifest_files.py lines 43-61), in
declarative form: a regular file with the vcf.gz extension whose extracted
sample list is present, non-empty, and shares no sample with the existing
set. -/
def acceptB (existing_samples : List String) (e : DirEntry) : Bool :=
  e.isFile && passes_vcf_gz_filter e.name &&
    (match e.samples with
     | none => false
     | some sample_names =>
         !(sample_names.length == 0) &&
           !(sample_names.any (fun s => existing_samples.contains s)))

/-- Embedding of the for-loop of find_files_with_new_samples
(create_manifest_files.py lines 43-65), with each continue branch made
explicit; the extraction failure branch (samples = none) is the except
clause that skips the file with a warning. -/
def find_loop (existing_samples : List String) : List DirEntry → List String
  | [] => []
  | e :: rest =>
    if e.isFile then
      if passes_vcf_gz_filter e.name then
        match e.samples with
        | none => find_loop existing_samples rest
        | some sample_names =>
          if sample_names.length == 0 then find_loop existing_samples rest
          else if sample_names.any (fun s => existing_samples.contains s) then
            find_loop existing_samples rest
          else e.name :: find_loop existing_samples rest
      else find_loop existing_samples rest
    else find_loop existing_samples rest

/-- Ordering of directory entries by filename, which for entries of one
directory agrees with sorted(dir_path.iterdir()) on full paths. -/
def entryNameLe (a b : DirEntry) : Prop := a.name ≤ b.name

instance : DecidableRel entryNameLe := fun a b =>
  decidable_of_iff (a.name.toList ≤ b.name.toList) String.le_iff_toList_le.symm

instance : IsTotal DirEntry entryNameLe := ⟨fun a b => le_total a.name b.name⟩

instance : IsTrans DirEntry entryNameLe := ⟨fun _ _ _ hab hbc => le_trans hab hbc⟩

/-- Embedding of find_files_with_new_samples (create_manifest_files.py
lines 35-67): iterate the directory listing in sorted order and collect
the accepted filenames.  The unsorted listing order of iterdir is the
input list's order. -/
def find_files_with_new_samples (entries : List DirEntry) (existing_samples : List String) :
    List String :=
  find_loop existing_samples (List.insertionSort entryNameLe entries)

/-- Zero-padded three-digit manifest sequence number, as in the f-string
f-format 03d of create_manifest_files.py line 89. -/
def pad3 (n : Nat) : String :=
  if n < 10 then "00" ++ decStr n
  else if n < 100 then "0" ++ decStr n
  else decStr n

/-- Manifest filename for one-based index i
(create_manifest_files.py line 90). -/
def manifestName (output_pfx : String) (i : Nat) : String :=
  output_pfx ++ "_" ++ pad3 i ++ ".manifest.txt"

/-- Number of manifests, create_manifest_files.py line 79:
(len(files) + files_per_manifest - 1) // files_per_manifest. -/
def num_manifests (len files_per_manifest : Nat) : Nat :=
  (len + files_per_manifest - 1) / files_per_manifest

/-- The contiguous slices files[i*cap : min((i+1)*cap, len)] taken by the
chunk loop of write_manifest_files, before the per-group sort. -/
def manifestSlices (files : List String) (files_per_manifest : Nat) : List (List String) :=
  (List.range (num_manifests files.length files_per_manifest)).map
    (fun i => (files.drop (i * files_per_manifest)).take files_per_manifest)

/-- Plain lexicographic order on strings, with a kernel-evaluable
decision procedure (Python list.sort on strings). -/
def strLe (a b : String) : Prop := a ≤ b

instance : DecidableRel strLe := fun a b =>
  decidable_of_iff (a.toList ≤ b.toList) String.le_iff_toList_le.symm

instance : IsTotal String strLe := ⟨fun a b => le_total a b⟩

instance : IsTrans String strLe := ⟨fun _ _ _ hab hbc => le_trans hab hbc⟩

/-- Observable effect of one call to write_manifest_files
(create_manifest_files.py lines 70-99): whether an exception was raised,
the notice printed on empty input, the rows written to manifest_list.csv
after its header, and each written manifest file with its sorted
contents. -/
structure WriteOutcome where
  errored : Bool
  notice : Option String
  indexRows : List String
  manifests : List (String × List String)
  deriving Repr, DecidableEq

/-- Embedding of write_manifest_files (create_manifest_files.py lines
70-99).  Empty input returns early after printing a notice, writing
nothing; files_per_manifest = 0 would raise ZeroDivisionError in Python
(modelled by errored := true); otherwise the files are cut into
contiguous slices of at most files_per_manifest entries, each slice is
sorted in place before being written, and the index lists the manifest
filenames in creation order. -/
def write_manifest_files (files : List String) (output_pfx : String)
    (files_per_manifest : Nat) : WriteOutcome :=
  if files.isEmpty then
    { errored := false, notice := some "No files to write to manifests",
      indexRows := [], manifests := [] }
  else if files_per_manifest = 0 then
    { errored := true, notice := none, indexRows := [], manifests := [] }
  else
    let groups := (List.range (num_manifests files.length files_per_manifest)).map
      (fun i => (manifestName output_pfx (i + 1),
        List.insertionSort strLe
          ((files.drop (i * files_per_manifest)).take files_per_manifest)))
    { errored := false, notice := none,
      indexRows := groups.map Prod.fst, manifests := groups }

/-- Python str.strip() whitespace test for the ASCII whitespace
characters. -/
def isPyWhitespace (c : Char) : Bool :=
  c = ' ' || c = '\t' || c = '\n' || c = '\r' || c = Char.ofNat 11 || c = Char.ofNat 12

/-- Python str.strip(): drop whitespace from both ends. -/
def pyStrip (s : String) : String :=
  String.mk (((s.data.dropWhile isPyWhitespace).reverse.dropWhile isPyWhitespace).reverse)

/-- Python str.endswith over the underlying character lists. -/
def strEndsWith (s suf : String) : Bool := suf.data.isSuffixOf s.data

/-- Embedding of the collection loop of check_tbi_files (cohort_update.py
lines 78-93 and identically vcf_merge.py lines 17-31): for every stripped
non-empty manifest line ending in .vcf.gz whose sibling index
line + ".tbi" does not exist, record that missing index path, in manifest
order. -/
def missing_tbi_files (manifest_lines : List String) (fsExists : String → Bool) :
    List String :=
  manifest_lines.filterMap (fun line =>
    let vcf_file := pyStrip line
    if vcf_file.data.isEmpty then none
    else if strEndsWith vcf_file ".vcf.gz" then
      let tbi_file := vcf_file ++ ".tbi"
      if fsExists tbi_file then none else some tbi_file
    else none)

/-- Outcome of the pre-engine phase of cohort_update.py main (and
vcf_merge.py main): either the missing-index abort with its exit status
and the printed list, or control reaching the engine launch. -/
inductive RunPhase where
  | abortedMissingTbi (exitStatus : Nat) (missing : List String)
  | engineLaunched
  deriving Repr, DecidableEq

/-- Embedding of check_tbi_files (cohort_update.py lines 94-98) in its
call position: the check runs before any gautil invocation, printing
every missing index file and exiting with status 1 when any is missing,
and only otherwise does main go on to launch the engine. -/
def cohort_update_preEngine (manifest_lines : List String) (fsExists : String → Bool) :
    RunPhase :=
  let missing := missing_tbi_files manifest_lines fsExists
  if missing.isEmpty then RunPhase.engineLaunched
  else RunPhase.abortedMissingTbi 1 missing

/-- C1 counterexample: the claim says allocate(8, 1) yields
readerThreads = 6, but threadCount.py computes flatten_threads = 1,
remaining = 7, reader_threads = max(1, floor(7 / 1)) = 7. -/
theorem threadCount_8_1_readerThreads_ne_6 :
    (threadCount_calc 8 1).map ThreadCounts.reader_threads ≠ some 6 := by
  decide

/-- C1 (amended): the thread allocator applied to cpuCount = 8 and
unitCount = 1 returns flattenerCount = 1, readerThreads = 7 and
readersPerFlattener = 1 (with back-computed merge_threads = 2 and
total = 16). -/
theorem threadCount_8_1_values :
    ∃ tc, threadCount_calc 8 1 = some tc ∧
      tc.flatten_threads = 1 ∧ tc.reader_threads = 7 ∧ tc.readers_per_flattener = 1 ∧
      tc.merge_threads = 2 ∧ tc.total = 16 := by
  refine ⟨_, rfl, rfl, rfl, rfl, ?_, ?_⟩ <;>
    norm_num [threadCount_calc, pymin, pymax, ceilIntDiv]

/-- C2: contrary to the claim, the code has no floor at 1 for
flatten_threads.  At cpu_count = 2, file_count = 1 (both accepted by the
script's own argument validation, which only requires positivity) the code
computes flatten_threads = min(0, 1) = 0 and raises ZeroDivisionError in
the reader_threads division (modelled by none); at cpu_count = 1 it
computes flatten_threads = -1, below the claimed floor of 1. -/
theorem threadCount_cpu2_divides_by_zero :
    threadCount_calc 2 1 = none ∧
    (threadCount_calc 1 1).map ThreadCounts.flatten_threads = some (-1) := by
  constructor
  · decide
  · decide

/-- C3 counterexample: at CPU budget 8 and file count 1 the merge stage of
cohort_merge.py carries readerWorkerThreads = 5, while the threadCount.py
formula of §4.1 yields reader_threads = 7, so the two do not agree. -/
theorem cohort_merge_stage_ne_formula_at_8_1 :
    ¬ ((threadCount_calc 8 1).map ThreadCounts.reader_threads =
        some (cohort_merge_mergeStage 8 1).readerWorkerThreads ∧
       (threadCount_calc 8 1).map ThreadCounts.readers_per_flattener =
        some (cohort_merge_mergeStage 8 1).readersPerFlattener) := by
  decide

/-- C3 (amended): the merge stage written by cohort_merge.py uses the fixed
values readerWorkerThreads = 5 and readersPerFlattener = 1 from
cohort_utils.calculate_thread_counts, independent of the CPU budget and the
input file count; it matches the §4.1 formula only where that formula
happens to produce (5, 1). -/
theorem cohort_merge_stage_constant (agent_cpu_cores file_count : Int) :
    cohort_merge_mergeStage agent_cpu_cores file_count =
      { readerWorkerThreads := 5, readersPerFlattener := 1 } := by
  rfl

/-- Helper: in a list sorted by a transitive relation, every member is
related (or equal) to the value returned by getLast?. -/
theorem sorted_getLast?_greatest {α : Type} {r : α → α → Prop} [IsTrans α r] :
    ∀ (l : List α), l.Sorted r → ∀ a ∈ l, ∃ m, l.getLast? = some m ∧ (a = m ∨ r a m) := by
  intro l
  induction l with
  | nil => intro _ a ha; cases ha
  | cons x xs ih =>
    intro hs a ha
    cases xs with
    | nil =>
      rcases List.mem_singleton.mp ha with rfl
      exact ⟨a, rfl, Or.inl rfl⟩
    | cons y t =>
      have hs' : (y :: t).Sorted r := hs.of_cons
      have hx : ∀ b ∈ y :: t, r x b := fun b hb => (List.sorted_cons.mp hs).1 b hb
      rcases List.mem_cons.mp ha with rfl | ha'
      · obtain ⟨m, hm, hy⟩ := ih hs' y (List.mem_cons_self y t)
        refine ⟨m, by rw [List.getLast?_cons_cons]; exact hm, Or.inr ?_⟩
        rcases hy with heq | hy
        · exact heq ▸ hx y (List.mem_cons_self y t)
        · exact Trans.trans (hx y (List.mem_cons_self y t)) hy
      · obtain ⟨m, hm, hrel⟩ := ih hs' a ha'
        exact ⟨m, by rw [List.getLast?_cons_cons]; exact hm, hrel⟩

/-- C4 counterexample: the claim says the resolver's choice is independent
of file modification times, but cohort_update.py sorts the glob result by
os.path.getmtime; with out_2024-01-01.tsf modified more recently than
out_2024-03-15.tsf it selects the lexically smaller out_2024-01-01.tsf. -/
theorem resolveLatest_update_depends_on_mtime :
    resolveLatest_update ["out_2024-01-01.tsf", "out_2024-03-15.tsf"]
        (fun s => if s = "out_2024-01-01.tsf" then 2 else 1) = some "out_2024-01-01.tsf" ∧
    resolveLatest_update ["out_2024-01-01.tsf", "out_2024-03-15.tsf"]
        (fun s => if s = "out_2024-01-01.tsf" then 2 else 1) ≠ some "out_2024-03-15.tsf" := by
  constructor
  · rfl
  · decide

/-- C4 (amended): the resolver in cohort_merge.py does select an artifact
of lexically greatest basename, for every non-empty candidate list and
independent of its enumeration order; the resolver in cohort_update.py
instead selects the most recently modified artifact. -/
theorem resolveLatest_merge_lexically_greatest (files : List String) (h : files ≠ []) :
    ∃ f, resolveLatest_merge files = some f ∧ f ∈ files ∧
      ∀ g ∈ files, basename g ≤ basename f := by
  have hne : ¬ files.isEmpty := by simpa [List.isEmpty_iff] using h
  have hperm := List.perm_insertionSort basenameLe files
  have hsorted := List.sorted_insertionSort basenameLe files
  have hsne : List.insertionSort basenameLe files ≠ [] := by
    intro hnil
    rw [hnil] at hperm
    exact h hperm.symm.eq_nil
  obtain ⟨x, hx⟩ := List.exists_mem_of_ne_nil _ hsne
  obtain ⟨m, hm, _⟩ := sorted_getLast?_greatest _ hsorted x hx
  refine ⟨m, ?_, ?_, ?_⟩
  · simp [resolveLatest_merge, hne, hm]
  · obtain ⟨hnil, heq⟩ := List.mem_getLast?_eq_getLast (Option.mem_def.mpr hm)
    exact hperm.subset (heq ▸ List.getLast_mem hnil)
  · intro g hg
    have hg' : g ∈ List.insertionSort basenameLe files := hperm.symm.subset hg
    obtain ⟨m', hm', hrel⟩ := sorted_getLast?_greatest _ hsorted g hg'
    rw [hm] at hm'
    rcases Option.some.inj hm' with rfl
    rcases hrel with heq | hrel
    · exact heq ▸ le_refl _
    · exact hrel

/-- Witness for the amended C4 theorem at the spec's example pair, in both
enumeration orders: the merge-site resolver returns out_2024-03-15.tsf. -/
theorem resolveLatest_merge_lexically_greatest_witness :
    (["out_2024-01-01.tsf", "out_2024-03-15.tsf"] : List String) ≠ [] ∧
    resolveLatest_merge ["out_2024-01-01.tsf", "out_2024-03-15.tsf"] =
      some "out_2024-03-15.tsf" ∧
    resolveLatest_merge ["out_2024-03-15.tsf", "out_2024-01-01.tsf"] =
      some "out_2024-03-15.tsf" ∧
    (∃ f, resolveLatest_merge ["out_2024-01-01.tsf", "out_2024-03-15.tsf"] = some f ∧
      f ∈ ["out_2024-01-01.tsf", "out_2024-03-15.tsf"] ∧
      ∀ g ∈ ["out_2024-01-01.tsf", "out_2024-03-15.tsf"], basename g ≤ basename f) :=
  ⟨by decide, by decide, by decide,
   resolveLatest_merge_lexically_greatest _ (by decide)⟩

/-- Helper: digit characters are injective on digits below 10. -/
theorem digitChar48_inj : ∀ d1 < 10, ∀ d2 < 10, digitChar48 d1 = digitChar48 d2 → d1 = d2 := by
  decide

/-- Helper: mapping digits below 10 to characters is injective. -/
theorem map_digitChar48_inj :
    ∀ (l1 l2 : List Nat), (∀ d ∈ l1, d < 10) → (∀ d ∈ l2, d < 10) →
      l1.map digitChar48 = l2.map digitChar48 → l1 = l2 := by
  intro l1
  induction l1 with
  | nil => intro l2 _ _ h; cases l2 with
    | nil => rfl
    | cons b t => simp at h
  | cons a t ih =>
    intro l2 h1 h2 h
    cases l2 with
    | nil => simp at h
    | cons b t2 =>
      simp only [List.map_cons, List.cons.injEq] at h
      have hd : a = b :=
        digitChar48_inj a (h1 a (List.mem_cons_self a t)) b (h2 b (List.mem_cons_self b t2)) h.1
      have ht : t = t2 := ih t2 (fun d hd' => h1 d (List.mem_cons_of_mem a hd'))
        (fun d hd' => h2 d (List.mem_cons_of_mem b hd')) h.2
      rw [hd, ht]

/-- Helper: the decimal rendering of a natural number is injective. -/
theorem decStr_inj : ∀ {m n : Nat}, decStr m = decStr n → m = n := by
  intro m n h
  unfold decStr at h
  by_cases hm : m = 0 <;> by_cases hn : n = 0
  · rw [hm, hn]
  · exfalso
    rw [if_pos hm, if_neg hn] at h
    have hdata := congrArg String.data h
    have : (Nat.digits 10 n).reverse.map digitChar48 = ['0'] := by
      simpa using hdata.symm
    have hdig : (Nat.digits 10 n).reverse = [0] := by
      apply map_digitChar48_inj _ [0]
      · intro d hd
        exact Nat.digits_lt_base (by norm_num) (List.mem_reverse.mp hd)
      · intro d hd; simp at hd; omega
      · simpa [digitChar48] using this
    have : Nat.digits 10 n = [0] := by
      have := congrArg List.reverse hdig
      simpa using this
    have := congrArg (Nat.ofDigits 10) this
    rw [Nat.ofDigits_digits] at this
    simp [Nat.ofDigits] at this
    exact hn this
  · exfalso
    rw [if_neg hm, if_pos hn] at h
    have hdata := congrArg String.data h
    have : (Nat.digits 10 m).reverse.map digitChar48 = ['0'] := by
      simpa using hdata
    have hdig : (Nat.digits 10 m).reverse = [0] := by
      apply map_digitChar48_inj _ [0]
      · intro d hd
        exact Nat.digits_lt_base (by norm_num) (List.mem_reverse.mp hd)
      · intro d hd; simp at hd; omega
      · simpa [digitChar48] using this
    have : Nat.digits 10 m = [0] := by
      have := congrArg List.reverse hdig
      simpa using this
    have := congrArg (Nat.ofDigits 10) this
    rw [Nat.ofDigits_digits] at this
    simp [Nat.ofDigits] at this
    exact hm this
  · rw [if_neg hm, if_neg hn] at h
    have hdata := congrArg String.data h
    have hmap : (Nat.digits 10 m).reverse.map digitChar48 =
        (Nat.digits 10 n).reverse.map digitChar48 := hdata
    have hdig := map_digitChar48_inj _ _
      (fun d hd => Nat.digits_lt_base (by norm_num) (List.mem_reverse.mp hd))
      (fun d hd => Nat.digits_lt_base (by norm_num) (List.mem_reverse.mp hd)) hmap
    have : Nat.digits 10 m = Nat.digits 10 n := List.reverse_injective hdig
    have := congrArg (Nat.ofDigits 10) this
    rwa [Nat.ofDigits_digits, Nat.ofDigits_digits] at this

/-- C5 counterexample: two distinct runs in the same minute produce the
same cohort_merge.py output name (its token has minute resolution), and
two distinct runs in the same second produce the same cohort_update.py
output name (its token has whole-second resolution); neither token has a
sub-second or monotonic counter component. -/
theorem nextVersion_collides :
    ((⟨2024, 3, 15, 12, 30, 10, 0, 1710505810⟩ : UtcTime) ≠
        ⟨2024, 3, 15, 12, 30, 40, 0, 1710505840⟩ ∧
      nextVersion_merge "out" ⟨2024, 3, 15, 12, 30, 10, 0, 1710505810⟩ =
        nextVersion_merge "out" ⟨2024, 3, 15, 12, 30, 40, 0, 1710505840⟩) ∧
    ((⟨2024, 3, 15, 12, 30, 10, 100000, 1710505810⟩ : UtcTime) ≠
        ⟨2024, 3, 15, 12, 30, 10, 900000, 1710505810⟩ ∧
      nextVersion_update "out" ⟨2024, 3, 15, 12, 30, 10, 100000, 1710505810⟩ =
        nextVersion_update "out" ⟨2024, 3, 15, 12, 30, 10, 900000, 1710505810⟩) :=
  ⟨⟨by decide, rfl⟩, ⟨by decide, rfl⟩⟩

/-- C5 (amended): the cohort_update.py output name is deterministic in the
observed clock and collision-free exactly down to whole seconds: two runs
on the same calendar date whose whole-second Unix timestamps differ get
distinct names (runs within the same second, or same minute for
cohort_merge.py, collide as shown in the counterexample). -/
theorem nextVersion_update_distinct_seconds (base : String) (t1 t2 : UtcTime)
    (hdate : strf_Ymd t1 = strf_Ymd t2)
    (hsec : t1.epochSeconds ≠ t2.epochSeconds) :
    nextVersion_update base t1 ≠ nextVersion_update base t2 := by
  intro h
  apply hsec
  apply decStr_inj
  unfold nextVersion_update at h
  rw [hdate] at h
  have hdata := congrArg String.data h
  simp only [String.data_append, List.append_assoc] at hdata
  have h1 := List.append_cancel_left hdata
  have h2 := List.append_cancel_left h1
  have h3 := List.append_cancel_left h2
  have h4 := List.append_cancel_left h3
  have h5 := List.append_cancel_right h4
  exact String.ext h5

/-- Witness for the amended C5 theorem: two clock readings one second
apart on the same date yield distinct update-site output names. -/
theorem nextVersion_update_distinct_seconds_witness :
    strf_Ymd ⟨2024, 3, 15, 12, 30, 10, 0, 1710505810⟩ =
      strf_Ymd ⟨2024, 3, 15, 12, 30, 11, 0, 1710505811⟩ ∧
    (⟨2024, 3, 15, 12, 30, 10, 0, 1710505810⟩ : UtcTime).epochSeconds ≠
      (⟨2024, 3, 15, 12, 30, 11, 0, 1710505811⟩ : UtcTime).epochSeconds ∧
    nextVersion_update "out" ⟨2024, 3, 15, 12, 30, 10, 0, 1710505810⟩ ≠
      nextVersion_update "out" ⟨2024, 3, 15, 12, 30, 11, 0, 1710505811⟩ :=
  ⟨rfl, by decide,
   nextVersion_update_distinct_seconds "out" _ _ rfl (by decide)⟩

/-- Helper: the selection loop equals a declarative filter-and-project
over its input list. -/
theorem find_loop_eq_filter (existing_samples : List String) :
    ∀ l, find_loop existing_samples l =
      (l.filter (acceptB existing_samples)).map DirEntry.name := by
  intro l
  induction l with
  | nil => rfl
  | cons e rest ih =>
    cases hf : e.isFile with
    | false => simp [find_loop, hf, acceptB, List.filter_cons, ih]
    | true =>
      cases hp : passes_vcf_gz_filter e.name with
      | false => simp [find_loop, hf, hp, acceptB, List.filter_cons, ih]
      | true =>
        cases hsamp : e.samples with
        | none => simp [find_loop, hf, hp, hsamp, acceptB, List.filter_cons, ih]
        | some sample_names =>
          by_cases hlen : sample_names.length = 0
          · simp [find_loop, hf, hp, hsamp, hlen, acceptB, List.filter_cons, ih]
          · by_cases hany : ∃ x ∈ sample_names, x ∈ existing_samples
            · simp [find_loop, hf, hp, hsamp, hlen, hany, acceptB, List.filter_cons, ih]
            · have hall : ∀ x ∈ sample_names, x ∉ existing_samples := by
                intro x hx hmem
                exact hany ⟨x, hx, hmem⟩
              simp [find_loop, hf, hp, hsamp, hlen, hany, acceptB, List.filter_cons, ih,
                if_pos hall]

/-- C6: the selector returns exactly the names of the sorted directory
entries accepted by the acceptance condition, in lexical order, and an
entry is accepted iff it is a file passing the name filter whose
extracted sample set is present, non-empty and disjoint from the known
sample set (a single overlapping sample rejects the whole file). -/
theorem find_files_spec (entries : List DirEntry) (existing_samples : List String) :
    find_files_with_new_samples entries existing_samples =
      ((List.insertionSort entryNameLe entries).filter
        (acceptB existing_samples)).map DirEntry.name ∧
    (find_files_with_new_samples entries existing_samples).Pairwise (· ≤ ·) ∧
    (∀ e : DirEntry, acceptB existing_samples e = true ↔
      (e.isFile = true ∧ passes_vcf_gz_filter e.name = true ∧
        ∃ sample_names, e.samples = some sample_names ∧ sample_names ≠ [] ∧
          ∀ s ∈ sample_names, s ∉ existing_samples)) := by
  refine ⟨find_loop_eq_filter existing_samples _, ?_, ?_⟩
  · rw [find_files_with_new_samples, find_loop_eq_filter]
    have hsorted : (List.insertionSort entryNameLe entries).Pairwise entryNameLe :=
      List.sorted_insertionSort entryNameLe entries
    have hfilter := hsorted.filter (p := acceptB existing_samples)
    rw [List.pairwise_map]
    exact hfilter.imp (fun h => h)
  · intro e
    rcases e with ⟨name, isFile, samples⟩
    cases samples with
    | none => simp [acceptB]
    | some sample_names =>
      simp only [acceptB, Bool.and_eq_true, Bool.not_eq_true', beq_eq_false_iff_ne, ne_eq,
        List.any_eq_false, List.length_eq_zero, Option.some.injEq]
      constructor
      · rintro ⟨⟨hf, hp⟩, hlen, hdisj⟩
        refine ⟨hf, hp, sample_names, rfl, hlen, ?_⟩
        intro s hs hmem
        exact absurd (List.elem_eq_true_of_mem hmem) (by simpa using hdisj s hs)
      · rintro ⟨hf, hp, l, hl, hne, hdisj⟩
        cases hl
        refine ⟨⟨hf, hp⟩, hne, ?_⟩
        intro s hs
        simpa using fun hmem => hdisj s hs hmem

/-- Helper: the contiguous take/drop slices of width cap concatenate
back to the original list. -/
theorem chunks_join {α : Type} (cap : Nat) (hcap : 0 < cap) :
    ∀ (n : Nat) (l : List α), l.length = n →
      ((List.range ((l.length + cap - 1) / cap)).map
        (fun i => (l.drop (i * cap)).take cap)).flatten = l := by
  intro n
  induction n using Nat.strong_induction_on with
  | _ n ih =>
    intro l hlen
    cases l with
    | nil =>
      have : (0 + cap - 1) / cap = 0 := by
        apply Nat.div_eq_of_lt
        omega
      simp [this]
    | cons x xs =>
      have hlpos : 0 < (x :: xs).length := by simp
      have hk : ((x :: xs).length + cap - 1) / cap =
          (((x :: xs).length - cap) + cap - 1) / cap + 1 := by
        rw [show (x :: xs).length + cap - 1 = ((x :: xs).length - 1) + cap by omega,
          Nat.add_div_right _ hcap]
        rcases Nat.lt_or_ge (x :: xs).length cap with hlt | hge
        · rw [show (x :: xs).length - cap = 0 by omega]
          rw [Nat.div_eq_of_lt (by omega), Nat.div_eq_of_lt (by omega)]
        · rw [show (x :: xs).length - cap + cap - 1 = (x :: xs).length - 1 by omega]
      have hlen' : ((x :: xs).drop cap).length = (x :: xs).length - cap := by
        simp
      have hdrop : ∀ i : Nat, ((x :: xs).drop ((i + 1) * cap)).take cap =
          (((x :: xs).drop cap).drop (i * cap)).take cap := by
        intro i
        rw [List.drop_drop, show cap + i * cap = (i + 1) * cap from by ring]
      have hmap : (List.range ((((x :: xs).length - cap) + cap - 1) / cap)).map
            ((fun i => ((x :: xs).drop (i * cap)).take cap) ∘ Nat.succ) =
          (List.range ((((x :: xs).drop cap).length + cap - 1) / cap)).map
            (fun i => (((x :: xs).drop cap).drop (i * cap)).take cap) := by
        rw [hlen']
        apply List.map_congr_left
        intro i _
        simp only [Function.comp_apply, Nat.succ_eq_add_one]
        exact hdrop i
      have hrec := ih (((x :: xs).drop cap).length)
        (by rw [hlen', hlen]; rw [hlen] at hlpos; omega) ((x :: xs).drop cap) rfl
      rw [hk, List.range_succ_eq_map]
      simp only [List.map_cons, List.map_map, List.flatten_cons, Nat.zero_mul, List.drop_zero]
      rw [hmap, hrec, List.take_append_drop]

/-- Helper: sorting each group yields, pointwise, a sorted permutation
of that group. -/
theorem forall2_sorted_perm (L : List (List String)) :
    List.Forall₂ (fun w s => w.Perm s ∧ w.Sorted (· ≤ ·))
      (L.map (List.insertionSort strLe)) L := by
  induction L with
  | nil => simp
  | cons g t ih =>
    simp only [List.map_cons]
    exact List.Forall₂.cons
      ⟨List.perm_insertionSort strLe g,
       (List.sorted_insertionSort strLe g).imp (fun h => h)⟩ ih

/-- C7: for every non-empty file sequence and positive capacity, the
chunker's slices partition the sequence in original order into contiguous
groups of at most capacity files; each written manifest is the lexical
sort (a sorted permutation) of its slice; and the index rows list the
manifest names in creation order. -/
theorem write_manifest_files_spec (files : List String) (output_pfx : String) (cap : Nat)
    (hne : files ≠ []) (hcap : 0 < cap) :
    (manifestSlices files cap).flatten = files ∧
    (∀ g ∈ manifestSlices files cap, g.length ≤ cap) ∧
    (write_manifest_files files output_pfx cap).errored = false ∧
    (write_manifest_files files output_pfx cap).manifests.map Prod.snd =
      (manifestSlices files cap).map (List.insertionSort strLe) ∧
    List.Forall₂ (fun w s => w.Perm s ∧ w.Sorted (· ≤ ·))
      ((write_manifest_files files output_pfx cap).manifests.map Prod.snd)
      (manifestSlices files cap) ∧
    (write_manifest_files files output_pfx cap).indexRows =
      (List.range (num_manifests files.length cap)).map
        (fun i => manifestName output_pfx (i + 1)) ∧
    (write_manifest_files files output_pfx cap).indexRows =
      (write_manifest_files files output_pfx cap).manifests.map Prod.fst := by
  have hempty : files.isEmpty = false := by
    simpa [List.isEmpty_iff] using hne
  have hcap' : ¬ cap = 0 := by omega
  have hmanifests : (write_manifest_files files output_pfx cap).manifests =
      (List.range (num_manifests files.length cap)).map
        (fun i => (manifestName output_pfx (i + 1),
          List.insertionSort strLe ((files.drop (i * cap)).take cap))) := by
    simp [write_manifest_files, hempty, hcap']
  have hsnd : (write_manifest_files files output_pfx cap).manifests.map Prod.snd =
      (manifestSlices files cap).map (List.insertionSort strLe) := by
    rw [hmanifests, manifestSlices, List.map_map, List.map_map]
    rfl
  refine ⟨?_, ?_, ?_, hsnd, ?_, ?_, ?_⟩
  · rw [manifestSlices, num_manifests]
    exact chunks_join cap hcap files.length files rfl
  · intro g hg
    rw [manifestSlices] at hg
    obtain ⟨i, _, rfl⟩ := List.mem_map.mp hg
    rw [List.length_take]
    exact Nat.min_le_left _ _
  · simp [write_manifest_files, hempty, hcap']
  · rw [hsnd]
    exact forall2_sorted_perm (manifestSlices files cap)
  · simp [write_manifest_files, hempty, hcap', List.map_map]
  · simp [write_manifest_files, hempty, hcap']

/-- C8 counterexample: on an empty accepted sequence
write_manifest_files does not fail; it returns with no error raised,
contrary to the claimed NoInputError. -/
theorem write_manifest_files_empty_no_error :
    (write_manifest_files [] "manifest" 128).errored = false := rfl

/-- C8 (amended): on an empty accepted sequence write_manifest_files
prints the notice and returns silently, raising no error and writing
neither manifests nor an index; the caller independently skips the call
in that case. -/
theorem write_manifest_files_empty_silent (output_pfx : String) (cap : Nat) :
    write_manifest_files [] output_pfx cap =
      { errored := false, notice := some "No files to write to manifests",
        indexRows := [], manifests := [] } := rfl

/-- Witness for C7 at the spec's example: chunking a, b, c, d, e with
capacity 2 yields three manifests of sizes 2, 2 and 1. -/
theorem write_manifest_files_sizes_example :
    ((["a", "b", "c", "d", "e"] : List String) ≠ [] ∧ 0 < 2) ∧
    (write_manifest_files ["a", "b", "c", "d", "e"] "manifest" 2).manifests.map Prod.snd =
      [["a", "b"], ["c", "d"], ["e"]] ∧
    (write_manifest_files ["a", "b", "c", "d", "e"] "manifest" 2).manifests.map
      (fun m => m.2.length) = [2, 2, 1] ∧
    (manifestSlices ["a", "b", "c", "d", "e"] 2).flatten = ["a", "b", "c", "d", "e"] :=
  ⟨⟨by decide, by decide⟩, by decide, by decide,
   (write_manifest_files_spec ["a", "b", "c", "d", "e"] "manifest" 2
      (by decide) (by decide)).1⟩

/-- Helper: a string ending in .vcf.gz is non-empty. -/
theorem strEndsWith_vcf_gz_nonempty (v : String)
    (h : strEndsWith v ".vcf.gz" = true) : v.data.isEmpty = false := by
  rw [strEndsWith] at h
  have hsuff : ".vcf.gz".data <:+ v.data := by
    rwa [← List.isSuffixOf_iff_suffix]
  have hlen := hsuff.length_le
  cases hd : v.data with
  | nil => rw [hd] at hlen; simp at hlen
  | cons c cs => simp

/-- C10: the pre-engine check collects exactly the missing .tbi siblings
of the .vcf.gz manifest entries; the engine is launched iff none is
missing, and otherwise the run aborts with exit status 1 carrying the
full missing list. -/
theorem check_tbi_files_spec (manifest_lines : List String) (fsExists : String → Bool) :
    (∀ t, t ∈ missing_tbi_files manifest_lines fsExists ↔
      ∃ l ∈ manifest_lines, strEndsWith (pyStrip l) ".vcf.gz" = true ∧
        t = pyStrip l ++ ".tbi" ∧ fsExists t = false) ∧
    (cohort_update_preEngine manifest_lines fsExists = RunPhase.engineLaunched ↔
      missing_tbi_files manifest_lines fsExists = []) ∧
    (cohort_update_preEngine manifest_lines fsExists =
        RunPhase.abortedMissingTbi 1 (missing_tbi_files manifest_lines fsExists) ↔
      missing_tbi_files manifest_lines fsExists ≠ []) := by
  refine ⟨?_, ?_, ?_⟩
  · intro t
    rw [missing_tbi_files, List.mem_filterMap]
    constructor
    · rintro ⟨l, hl, hf⟩
      refine ⟨l, hl, ?_⟩
      by_cases hemp : (pyStrip l).data.isEmpty
      · simp [hemp] at hf
      · by_cases hends : strEndsWith (pyStrip l) ".vcf.gz" = true
        · by_cases hex : fsExists (pyStrip l ++ ".tbi") = true
          · simp [hemp, hends, hex] at hf
          · simp only [Bool.not_eq_true] at hex
            simp [hemp, hends, hex] at hf
            exact ⟨hends, hf.symm, hf ▸ hex⟩
        · simp [hemp, hends] at hf
    · rintro ⟨l, hl, hends, rfl, hex⟩
      refine ⟨l, hl, ?_⟩
      have hemp := strEndsWith_vcf_gz_nonempty _ hends
      simp [hemp, hends, hex]
  · rw [cohort_update_preEngine]
    by_cases hm : missing_tbi_files manifest_lines fsExists = []
    · simp [hm]
    · simp [hm, List.isEmpty_iff]
  · rw [cohort_update_preEngine]
    by_cases hm : missing_tbi_files manifest_lines fsExists = []
    · simp [hm]
    · simp [hm, List.isEmpty_iff]
